import Mathlib

/-!
# Verification of the rss-ios backend content pipeline

Shallow embedding of the repository's backend code (`src/backend/src/server.ts`,
which contains two iterations of the server — referred to below as V1, the
`text`/`url`/`itemUrl` single-summary handler plus the Wikipedia feed endpoint,
and V2, the `itemUrl`/`articleUrl` dual-summary handler — and
`src/unnamed/part_001`, an earlier comment-only iteration, called P1 below)
together with the shared HTML-stripping utility
(`src/LlmRssIos/src/utils/stripHtmlTags.ts`).

JavaScript strings are modelled as `List Char`; JS truthiness of optional
strings (`undefined`/`null`/`""` are falsy) is modelled by `truthy`.
Network interactions (HTTP GET via axios, OpenAI completion / chat calls) are
modelled as oracle functions in an environment record, and each handler
returns, besides its HTTP response, the list of outbound network calls it
performed, in order.
-/

/-- JavaScript strings are modelled as lists of characters. -/
abbrev Str := List Char

/-- The whitespace class used by the backend: JS regex `\s` and `String.trim`
agree on these characters (the ASCII whitespace characters; the exotic
Unicode space code points, which both notions also share, are omitted
uniformly). -/
def isWs (c : Char) : Bool :=
  c = ' ' || c = '\t' || c = '\n' || c = '\r' || c = '\x0b' || c = '\x0c'

/-- JS truthiness of an optional string: `undefined`/`null` and `""` are falsy. -/
def truthy : Option Str → Bool
  | none => false
  | some s => !s.isEmpty

/-- JS `a || b` on optional strings. -/
def jsOr (a b : Option Str) : Option Str := if truthy a then a else b

/-- JS `a || b` on (non-null) strings: the empty string is falsy. -/
def jsOrStr (a b : Str) : Str := if a.isEmpty then b else a

/-- JS `String.prototype.trim`: strip leading and trailing whitespace. -/
def trimList (l : Str) : Str :=
  ((l.dropWhile isWs).reverse.dropWhile isWs).reverse

/-- Decimal rendering of a JS number index (used in template ids). -/
def natStr (n : Nat) : Str := (Nat.repr n).data

/-! ## HTML tag stripping

`src/LlmRssIos/src/utils/stripHtmlTags.ts` and the identical helper
`stripHtml` in server.ts V1:

```
function stripHtml(html) { if (!html) return ''; return html.replace(/<[^>]*>/g, ''); }
```

A global replace of `/<[^>]*>/` by `''`: a match starts at a `'<'` and
extends through the first following `'>'` (the greedy `[^>]*` cannot cross a
`'>'`); a `'<'` with no later `'>'` never matches.  `stripGo` scans the
string once: outside a tag it copies characters, except that a `'<'` opens a
tag when some `'>'` follows (otherwise the regex cannot match anywhere in
the remainder, which is therefore kept verbatim); inside a tag characters
are dropped up to and including the closing `'>'`. -/

def stripGo : Str → Bool → Str
  | [], _ => []
  | c :: rest, false =>
    if c = '<' then
      if rest.contains '>' then stripGo rest true else c :: rest
    else c :: stripGo rest false
  | c :: rest, true =>
    if c = '>' then stripGo rest false else stripGo rest true

/-- The `stripHtmlTags` util / server.ts `stripHtml` on a (non-null) string. -/
def stripHtml (html : Str) : Str := stripGo html false

/-- Holds when `l` contains no residual `<...>` tag pattern: after the first `'<'`
(if any) no `'>'` occurs. -/
def noTagPattern (l : Str) : Bool :=
  (l.dropWhile (· ≠ '<')).all (· ≠ '>')

theorem stripGo_true_eq (s : Str) :
    stripGo s true = stripGo (s.dropWhile (· ≠ '>')).tail false := by
  induction s with
  | nil => rfl
  | cons c rest ih =>
    by_cases h : c = '>'
    · subst h; simp [stripGo, List.dropWhile]
    · simp [stripGo, List.dropWhile, h, ih]

theorem length_tail_dropWhile_le (p : Char → Bool) (s : Str) :
    ((s.dropWhile p).tail).length ≤ s.length := by
  have h1 : (s.dropWhile p).length ≤ s.length :=
    (List.dropWhile_sublist p).length_le
  have h2 : ((s.dropWhile p).tail).length ≤ (s.dropWhile p).length := by
    simp [List.length_tail]
  omega

theorem noTagPattern_stripGo_aux :
    ∀ (n : Nat) (s : Str), s.length ≤ n → noTagPattern (stripGo s false) := by
  intro n
  induction n with
  | zero =>
    intro s h
    have : s = [] := List.length_eq_zero.mp (Nat.le_zero.mp h)
    subst this
    simp [stripGo, noTagPattern]
  | succ n ih =>
    intro s h
    match s with
    | [] => simp [stripGo, noTagPattern]
    | c :: rest =>
      by_cases hc : c = '<'
      · subst hc
        by_cases hg : rest.contains '>'
        · rw [stripGo, if_pos rfl, if_pos hg, stripGo_true_eq]
          refine ih _ ?_
          have := length_tail_dropWhile_le (· ≠ '>') rest
          simp only [List.length_cons] at h
          omega
        · rw [stripGo, if_pos rfl, if_neg hg]
          have hnr : ∀ x ∈ rest, x ≠ '>' := by
            intro x hx hxe
            rw [List.contains_eq_any_beq] at hg
            exact hg (by rw [List.any_eq_true]; exact ⟨x, hx, by simp [hxe]⟩)
          simp only [noTagPattern, List.dropWhile]
          norm_num
          simpa [List.all_eq_true] using hnr
      · rw [stripGo, if_neg hc]
        have hrec : noTagPattern (stripGo rest false) := by
          refine ih rest ?_
          simp only [List.length_cons] at h; omega
        simpa [noTagPattern, List.dropWhile, hc] using hrec

theorem stripGo_sublist (s : Str) (b : Bool) : (stripGo s b).Sublist s := by
  induction s generalizing b with
  | nil => simp [stripGo]
  | cons c rest ih =>
    cases b with
    | false =>
      by_cases hc : c = '<'
      · subst hc
        by_cases hg : rest.contains '>'
        · rw [stripGo, if_pos rfl, if_pos hg]
          exact (ih true).cons _
        · rw [stripGo, if_pos rfl, if_neg hg]
      · rw [stripGo, if_neg hc]
        exact (ih false).cons₂ _
    | true =>
      by_cases hc : c = '>'
      · rw [stripGo, if_pos hc]
        exact (ih false).cons _
      · rw [stripGo, if_neg hc]
        exact (ih true).cons _

/-- If the input has no `'<'` at all, stripping keeps it unchanged. -/
theorem stripGo_false_of_no_lt (s : Str) (h : '<' ∉ s) : stripGo s false = s := by
  induction s with
  | nil => rfl
  | cons c rest ih =>
    have hc : c ≠ '<' := fun he => h (he ▸ List.mem_cons_self c rest)
    have hr : '<' ∉ rest := fun hm => h (List.mem_cons_of_mem _ hm)
    simp [stripGo, hc, ih hr]

/-- Claim C3. For every input string, the tag-stripping function returns a
string that contains no `<...>` sequence (no `'<'` followed by a later
`'>'`), and the retained text appears in the output in the same relative
order as in the input (the output is a sublist of the input; in particular,
an input containing no tag opener is returned verbatim). -/
theorem claim_C3 (s : Str) :
    noTagPattern (stripHtml s) ∧ (stripHtml s).Sublist s ∧
      ('<' ∉ s → stripHtml s = s) := by
  refine ⟨noTagPattern_stripGo_aux s.length s (Nat.le_refl _),
    stripGo_sublist s false, ?_⟩
  exact stripGo_false_of_no_lt s

/-! ## Splitting a digest into blocks

Server.ts V1's Wikipedia feed endpoint splits the stripped plain text with
`plainTextContent.split(/\n\s*\n/)`.  A leftmost match of `\n\s*\n` begins at
a `'\n'` and, `[^...]`-greedily, runs through the *last* `'\n'` of the
maximal whitespace run that follows (the greedy `\s*` backtracks to the last
position where the final `\n` can still match).  `splitStep`/`splitConsume`
implement this as a single left-to-right scan:

* `inBlock acc` — inside a block, `acc` holds the block so far (reversed);
* `sawNl acc pend` — a `'\n'` was seen and only whitespace since; `pend`
  (reversed) holds that `'\n'` and the following whitespace, which belongs
  to the current block unless a second `'\n'` confirms a separator;
* `inSep pend` — inside a confirmed separator, after its (current) last
  `'\n'`; `pend` (reversed) holds whitespace seen since, which starts the
  next block unless yet another `'\n'` extends the separator. -/

inductive SplitState where
  | inBlock (acc : Str)
  | sawNl (acc : Str) (pend : Str)
  | inSep (pend : Str)
deriving DecidableEq, Repr

def splitStep (c : Char) : SplitState → List Str × SplitState
  | .inBlock acc =>
    if c = '\n' then ([], .sawNl acc ['\n'])
    else ([], .inBlock (c :: acc))
  | .sawNl acc pend =>
    if c = '\n' then ([acc.reverse], .inSep [])
    else if isWs c then ([], .sawNl acc (c :: pend))
    else ([], .inBlock (c :: (pend ++ acc)))
  | .inSep pend =>
    if c = '\n' then ([], .inSep [])
    else if isWs c then ([], .inSep (c :: pend))
    else ([], .inBlock (c :: pend))

def splitConsume : Str → SplitState → List Str × SplitState
  | [], st => ([], st)
  | c :: rest, st =>
    let (emitted, st1) := splitStep c st
    let (out, fin) := splitConsume rest st1
    (emitted ++ out, fin)

/-- End-of-input: whatever is pending belongs to the final block. -/
def splitFlush : SplitState → List Str
  | .inBlock acc => [acc.reverse]
  | .sawNl acc pend => [(pend ++ acc).reverse]
  | .inSep pend => [pend.reverse]

/-- Total emitted output of a run from `st`. -/
def splitRunOut (s : Str) (st : SplitState) : List Str :=
  (splitConsume s st).1 ++ splitFlush (splitConsume s st).2

/-- JS `plainText.split(/\n\s*\n/)`. -/
def splitBlocks (s : Str) : List Str := splitRunOut s (.inBlock [])

/-! Line-level view used to relate the splitter to the spec's notion of
blank-line-delimited paragraphs. -/

/-- JS `s.split('\n')`: the list of lines of `s` (always nonempty). -/
def jsLines : Str → List Str
  | [] => [[]]
  | c :: rest =>
    if c = '\n' then [] :: jsLines rest
    else match jsLines rest with
      | [] => [[c]]
      | l :: ls => (c :: l) :: ls

/-- Join a list of lines with `'\n'` (left inverse of `jsLines`). -/
def joinNl : List Str → Str
  | [] => []
  | [l] => l
  | l :: ls => l ++ '\n' :: joinNl ls

/-- A blank line: whitespace-only. -/
def isBlankLine (l : Str) : Bool := l.all isWs

/-! `blocksOfLines` is the line-level equivalent of `splitBlocks` (proved
below): blocks of a line list, where `goB acc ls` is "inside a block whose
content so far is `acc`, a newline separates it from `ls`" and `goS ls` is
"inside a confirmed separator whose last `'\n'` immediately precedes `ls`". -/
mutual
def goB : Str → List Str → List Str
  | acc, [] => [acc]
  | acc, l :: ls =>
    if isBlankLine l then
      match ls with
      | [] => [acc ++ '\n' :: l]
      | _ :: _ => acc :: goS ls
    else goB (acc ++ '\n' :: l) ls

def goS : List Str → List Str
  | [] => [[]]
  | l :: ls =>
    if isBlankLine l then
      match ls with
      | [] => [l]
      | _ :: _ => goS ls
    else goB l ls
end

def blocksOfLines : List Str → List Str
  | [] => []
  | l :: ls => goB l ls

/-- Modelled from the spec (§4.6, §8): paragraphs are maximal runs of
non-blank lines; splitting the line list at blank lines.  The groups
(some possibly empty) of consecutive non-blank lines. -/
def paraSplit : List Str → List (List Str)
  | [] => [[]]
  | l :: ls =>
    if isBlankLine l then [] :: paraSplit ls
    else (paraSplit ls).modifyHead (l :: ·)

/-- Modelled from the spec: the blank-line-delimited paragraphs of a text,
each taken as its trimmed line group (whitespace-only groups discarded). -/
def specParagraphs (s : Str) : List Str :=
  ((paraSplit (jsLines s)).filter (· ≠ [])).map (fun g => trimList (joinNl g))

/-! ## Network model

Outbound calls a handler can make, recorded in order.  `httpGet` is an
`axios.get`; `completionCall` is `openai.completions.create` (prompt-only
API, V1 and the Wikipedia endpoint); `chatCall` is
`openai.chat.completions.create` with a system and a user message (V2, P1). -/

inductive NetCall where
  | httpGet (url : Str)
  | completionCall (prompt : Str)
  | chatCall (system user : Str)
deriving DecidableEq, Repr

/-- Result of an `axios.get`: a response with its `content-type` header and
body, or a thrown transport error with its message. -/
inductive FetchResult where
  | ok (contentType : Option Str) (body : Str)
  | err (msg : Str)
deriving DecidableEq, Repr

/-- A Readability extraction result (`article.title`, `article.textContent`);
`none` models `reader.parse()` returning `null`. -/
structure RArticle where
  title : Str
  textContent : Str
deriving DecidableEq, Repr

/-! ## Server.ts V2 — the dual-summary `/api/summarize` handler

Embeds the second server iteration in `src/backend/src/server.ts`
(request `{itemUrl?, articleUrl?}`, response
`{commentSummary?, articleSummary?, error?, details?}`). -/

namespace V2

/-- Oracles for everything the handler delegates: the environment API key,
`axios.get`, the cheerio `'.commtext'` extraction, Readability (keyed on the
page URL and HTML), and the chat completion service
(`choices[0]?.message?.content`, `none` on error or missing content). -/
structure Env where
  apiKey : Option Str
  fetch : Str → FetchResult
  selectComments : Str → List Str
  readability : Str → Str → Option RArticle
  chatComplete : Str → Str → Option Str

structure Request where
  itemUrl : Option Str
  articleUrl : Option Str
deriving DecidableEq, Repr

structure Body where
  commentSummary : Option Str := none
  articleSummary : Option Str := none
  error : Option Str := none
  detailsCommentError : Option Str := none
  detailsArticleError : Option Str := none
deriving DecidableEq, Repr

structure Response where
  status : Nat
  body : Body
deriving DecidableEq, Repr

/-- Embeds `getOpenAISummary`: one chat call; returns
`choices[0]?.message?.content?.trim() ?? null`, `null` on API error. -/
def getOpenAISummary (env : Env) (prompt content : Str) :
    Option Str × List NetCall :=
  ((env.chatComplete prompt content).map trimList, [.chatCall prompt content])

/-- The fixed article truncation ceiling (`maxArticleLength`). -/
def maxArticleLength : Nat := 20000

/-- The truncation step in `summarizeArticle`:
`textContent.length > maxArticleLength ? textContent.substring(0, maxArticleLength) + '...' : textContent`. -/
def truncateArticleContent (l : Str) : Str :=
  if l.length > maxArticleLength then l.take maxArticleLength ++ "...".data
  else l

def articleSysPrompt : Str :=
  ("You are a helpful assistant. Summarize the key points of the " ++
   "following article concisely for a mobile app reader.").data

/-- The template `Article Title: ${article.title || 'N/A'}\n\nContent:\n${truncatedContent}`. -/
def articleUserContent (title truncated : Str) : Str :=
  "Article Title: ".data ++ jsOrStr title "N/A".data ++
    "\n\nContent:\n".data ++ truncated

/-- Embeds `summarizeArticle(articleUrl)`: `null` (with no calls) when the URL is
falsy; otherwise fetch, require an HTML content type, extract with
Readability, truncate and summarize.  Every failure yields `null`; the
function never throws (its own catch returns `null`). -/
def summarizeArticle (env : Env) (articleUrl : Option Str) :
    Option Str × List NetCall :=
  if !truthy articleUrl then (none, [])
  else
    let u := articleUrl.getD []
    match env.fetch u with
    | .err _ => (none, [.httpGet u])
    | .ok ct html =>
      let ctOk := match ct with
        | none => false
        | some c => !c.isEmpty && decide ("text/html".data <:+: c)
      if ctOk = false then (none, [.httpGet u])
      else match env.readability u html with
        | none => (none, [.httpGet u])
        | some art =>
          if art.textContent.isEmpty then (none, [.httpGet u])
          else
            let truncated := truncateArticleContent art.textContent
            let (s, calls) :=
              getOpenAISummary env articleSysPrompt
                (articleUserContent art.title truncated)
            (s, .httpGet u :: calls)

/-- The comments separator `'\n\n---\n\n'` used by `comments.join`. -/
def commentsSep : Str := "\n\n---\n\n".data

def joinComments : List Str → Str
  | [] => []
  | [c] => c
  | c :: cs => c ++ commentsSep ++ joinComments cs

def maxCommentLength : Nat := 15000

/-- Comment-fetch phase (`if (itemUrl ...) { try { axios.get; cheerio;
'.commtext'; join; truncate } catch { commentError = msg } }`): returns
`(extractedCommentsText, commentError, calls)`. -/
def commentFetchPhase (env : Env) (u : Str) :
    Option Str × Option Str × List NetCall :=
  match env.fetch u with
  | .err m => (none, some m, [.httpGet u])
  | .ok _ html =>
    let comments := env.selectComments html
    if comments.length > 0 then
      let commentsText := joinComments comments
      let extracted :=
        if commentsText.length > maxCommentLength then
          commentsText.take maxCommentLength ++ "...".data
        else commentsText
      (some extracted, none, [.httpGet u])
    else (none, none, [.httpGet u])

def commentSysPrompt : Str :=
  ("You are a helpful assistant that summarizes Hacker News comment " ++
   "threads based on the structured prompt below.").data

/-- The comment summary the handler ends up with, as a function of the
request: the comment pipeline in isolation (fetch/extract then, when some
comment text was extracted, one chat call). -/
def commentSummaryOf (env : Env) (req : Request) : Option Str :=
  let extracted :=
    if truthy req.itemUrl then (commentFetchPhase env (req.itemUrl.getD [])).1
    else none
  if truthy extracted then
    (env.chatComplete commentSysPrompt (extracted.getD [])).map trimList
  else none

/-- The article summary the handler ends up with (`summarizeArticle`). -/
def articleSummaryOf (env : Env) (req : Request) : Option Str :=
  (summarizeArticle env req.articleUrl).1

def missingBothMsg : Str := "Missing both itemUrl and articleUrl".data
def keyMissingMsg : Str := "OpenAI API key not configured".data
def failedBothMsg : Str := "Failed to generate summaries.".data
def commentFailedMsg : Str := "Comment summary failed.".data
def articleFailedMsg : Str := "Article summary failed.".data

/-- The V2 `summarizeHandler`.  Note the source's `articleError` is never
assigned (the `summarizeArticle` call cannot throw, since it catches
internally), so the 500 details always carry the default article message. -/
def summarizeHandler (env : Env) (req : Request) :
    Response × List NetCall :=
  if !truthy req.itemUrl && !truthy req.articleUrl then
    ({status := 400, body := {error := some missingBothMsg}}, [])
  else if !truthy env.apiKey then
    ({status := 500, body := {error := some keyMissingMsg}}, [])
  else
    let (extracted, commentErr, calls1) :=
      if truthy req.itemUrl then commentFetchPhase env (req.itemUrl.getD [])
      else (none, none, [])
    let (articleSummary, calls2) := summarizeArticle env req.articleUrl
    let (commentSummary, calls3) :=
      if truthy extracted then
        getOpenAISummary env commentSysPrompt (extracted.getD [])
      else (none, [])
    let calls := calls1 ++ calls2 ++ calls3
    if !truthy commentSummary && !truthy articleSummary then
      ({status := 500,
        body := {error := some failedBothMsg,
                 detailsCommentError :=
                   some ((jsOr commentErr (some commentFailedMsg)).getD []),
                 detailsArticleError := some articleFailedMsg}}, calls)
    else
      ({status := 200,
        body := {commentSummary := commentSummary,
                 articleSummary := articleSummary}}, calls)

end V2

/-! ## Server.ts V1 — single-summary `/api/summarize` and the Wikipedia feed -/

namespace V1

/-- The `summaryType` of a V1 request (`'article' | 'comment' | 'wikipedia_event_block'`). -/
inductive SummaryType where
  | article
  | comment
  | wikipediaEventBlock
deriving DecidableEq, Repr

structure Request where
  text : Option Str
  url : Option Str
  itemUrl : Option Str
  summaryType : Option SummaryType
deriving DecidableEq, Repr

structure Response where
  status : Nat
  summary : Str
  error : Option Str
deriving DecidableEq, Repr

/-- Oracles: `axios.get`, Readability keyed on (url, html), and the
completion service (`completion.choices[0].text`, `none` when the call
throws or the choice is missing). -/
structure Env where
  fetch : Str → FetchResult
  readability : Str → Str → Option RArticle
  complete : Str → Option Str

def fetchFailMsgFor (m : Str) : Str :=
  "Failed to fetch or parse URL: ".data ++ m

def extractFailMsg : Str :=
  "Failed to extract readable content from URL".data

/-- Embeds `fetchContentFromURL(url, res)`: returns the extracted text, or the
error response it already sent (in which case the handler just returns). -/
def fetchContentFromURL (env : Env) (u : Str) : Except Response Str :=
  match env.fetch u with
  | .err m =>
    .error {status := 500, summary := [], error := some (fetchFailMsgFor m)}
  | .ok _ html =>
    match env.readability u html with
    | some art =>
      if !art.textContent.isEmpty then .ok art.textContent
      else .error {status := 500, summary := [], error := some extractFailMsg}
    | none =>
      .error {status := 500, summary := [], error := some extractFailMsg}

def basePromptFor : Option SummaryType → Str
  | some .article =>
    ("Please provide a concise summary of the following article content. " ++
     "Focus on the main points, key arguments, and conclusions. " ++
     "Article content:").data
  | some .comment =>
    ("Please summarize the key points or arguments from the following " ++
     "comments or discussion. Comments:").data
  | some .wikipediaEventBlock =>
    ("Concisely summarize the following news event excerpt from Wikipedia. " ++
     "Highlight key actions, entities, and outcomes. Event Excerpt:").data
  | none => "Please summarize the following text clearly and concisely.".data

/-- The final prompt: base prompt, blank line, the content, and — when a
context URL is truthy — the context suffix. -/
def buildPrompt (st : Option SummaryType) (content : Str)
    (ctxUrl : Option Str) : Str :=
  basePromptFor st ++ "\n\n".data ++ content ++
    (if truthy ctxUrl then
      "\n\n(For context, this content is from or related to: ".data ++
        ctxUrl.getD [] ++ ")".data
     else [])

def noContentMsg : Str :=
  "No content provided or found for summarization".data

/-- An uncaught error is passed to `next(error)`, i.e. Express's default
500 error handler. -/
def internalErrMsg : Str := "Internal server error in summarization".data

/-- Send the content to the completion API and answer (the completion call
is made in both outcomes; a throw is funnelled to the error handler). -/
def summarizeStep (env : Env) (st : Option SummaryType) (content : Str)
    (ctxUrl : Option Str) : Response × List NetCall :=
  let p := buildPrompt st content ctxUrl
  match env.complete p with
  | some s =>
    ({status := 200, summary := trimList s, error := none}, [.completionCall p])
  | none =>
    ({status := 500, summary := [], error := some internalErrMsg},
     [.completionCall p])

/-- The V1 `summarizeHandler` (`text`/`url`/`itemUrl` flavour). -/
def summarizeHandler (env : Env) (req : Request) :
    Response × List NetCall :=
  let text0 : Option Str := if truthy req.text then req.text else none
  if text0.isNone && truthy req.url then
    let u := req.url.getD []
    match fetchContentFromURL env u with
    | .error r => (r, [.httpGet u])
    | .ok c =>
      let (r, calls) := summarizeStep env req.summaryType c (jsOr req.url req.itemUrl)
      (r, .httpGet u :: calls)
  else if text0.isNone && truthy req.itemUrl then
    let u := req.itemUrl.getD []
    match fetchContentFromURL env u with
    | .error r => (r, [.httpGet u])
    | .ok c =>
      let (r, calls) := summarizeStep env req.summaryType c req.itemUrl
      (r, .httpGet u :: calls)
  else
    match text0 with
    | none => ({status := 400, summary := [], error := some noContentMsg}, [])
    | some t => summarizeStep env req.summaryType t (jsOr req.url req.itemUrl)

end V1

/-! ## The Wikipedia daily-events endpoint (server.ts V1) -/

namespace Wiki

/-- One parsed feed item as `rss-parser` hands it over. -/
structure Entry where
  guid : Option Str
  id : Option Str
  content : Option Str
  pubDate : Option Str
  isoDate : Option Str
deriving DecidableEq, Repr

/-- A `ProcessedWikipediaEvent`. -/
structure PEvent where
  id : Str
  date : Option Str
  topicTitle : Str
  llmSummary : Str
  originalBlockText : Str
  sourceLinks : List (Str × Str)
deriving DecidableEq, Repr

/-- Oracles: the completion service and the link extractor
(`extractLinks` runs an anchor-tag regex over the entry HTML; no claim
depends on its output, so it is kept abstract). -/
structure Env where
  complete : Str → Option Str
  linksOf : Str → List (Str × Str)

/-- The per-block prompt
`Concisely summarize ... Event Excerpt:\n\n${trimmedBlock}`. -/
def blockPrompt (trimmedBlock : Str) : Str :=
  ("Concisely summarize the following news event excerpt from Wikipedia. " ++
   "Highlight key actions, entities, and outcomes. Event Excerpt:").data ++
    "\n\n".data ++ trimmedBlock

def unavailableMsg : Str := "Summary not available.".data

def untitledMsg : Str := "Untitled Event".data

/-- The per-entry block loop: whitespace-only blocks are skipped without
consuming an event index; each kept block yields one event whose id is
`${guid}_event_${index}`, whose topic title is the block's first line
(`trimmedBlock.split('\n')[0] || 'Untitled Event'`), and whose summary
degrades to a placeholder when the completion call fails. -/
def processBlocks (env : Env) (guid : Str) (date : Option Str)
    (links : List (Str × Str)) : List Str → Nat → List PEvent
  | [], _ => []
  | b :: bs, idx =>
    let t := trimList b
    if t.isEmpty then processBlocks env guid date links bs idx
    else
      { id := guid ++ "_event_".data ++ natStr idx,
        date := date,
        topicTitle := jsOrStr (t.takeWhile (· ≠ '\n')) untitledMsg,
        llmSummary :=
          match env.complete (blockPrompt t) with
          | some s => trimList s
          | none => unavailableMsg,
        originalBlockText := t,
        sourceLinks := links } :: processBlocks env guid date links bs (idx + 1)

/-- Embeds `dailyEntry.guid || dailyEntry.id || wp_day_${Date.now()}`; the
nondeterministic `Date.now()` part is passed in as `fallback`. -/
def resolvedGuid (fallback : Str) (e : Entry) : Str :=
  (jsOr (jsOr e.guid e.id) (some ("wp_day_".data ++ fallback))).getD []

/-- Process one daily entry: skip it when it has no (truthy) content,
otherwise strip HTML, split into blocks and run the block loop. -/
def processEntry (env : Env) (fallback : Str) (e : Entry) : List PEvent :=
  if !truthy e.content then []
  else
    let c := e.content.getD []
    processBlocks env (resolvedGuid fallback e) (jsOr e.pubDate e.isoDate)
      (env.linksOf c) (splitBlocks (stripHtml c)) 0

structure WResponse where
  status : Nat
  events : List PEvent
  errorMsg : Option Str
deriving DecidableEq, Repr

/-- Embeds `GET /api/wikipedia-daily-events`: the feed fetch itself is modelled as
an `Except` input (`.error` = `parser.parseURL` threw). -/
def wikipediaDailyEvents (env : Env) (fallback : Str)
    (feed : Except Str (List Entry)) : WResponse :=
  match feed with
  | .error m =>
    {status := 500, events := [],
     errorMsg := some ("Failed to fetch or process Wikipedia daily events: ".data ++ m)}
  | .ok items =>
    {status := 200,
     events := (items.map (processEntry env fallback)).flatten,
     errorMsg := none}

end Wiki

/-! ## P1 — `src/unnamed/part_001`, the comment-only `/api/summarize` -/

namespace P1

structure Request where
  itemUrl : Option Str
deriving DecidableEq, Repr

structure Response where
  status : Nat
  summary : Option Str := none
  error : Option Str := none
  details : Option Str := none
deriving DecidableEq, Repr

/-- Oracles; `chatComplete` returns `.error m` when the OpenAI call throws
(caught by the handler's catch-all) and `.ok` with
`choices[0]?.message?.content` otherwise. -/
structure Env where
  apiKey : Option Str
  fetch : Str → FetchResult
  selectComments : Str → List Str
  chatComplete : Str → Str → Except Str (Option Str)

def missingItemMsg : Str := "Missing itemUrl in request body".data
def keyMissingMsg : Str := "OpenAI API key not configured on server".data
def noCommentsMsg : Str := "No comments found to summarize.".data
def processFailMsg : Str := "Failed to process request".data
def noSummaryMsg : Str := "Could not generate summary.".data

def hnSysPrompt : Str :=
  "You are a helpful assistant that summarizes Hacker News comment threads.".data

/-- The structured user prompt; its long fixed preamble is abbreviated to
its first sentence plus a marker, which no claim depends on. -/
def hnUserPrompt (truncatedComments : Str) : Str :=
  ("Below is a list of comments from a Hacker News discussion. " ++
   "[structured instructions 1-5]").data ++ "\n\n".data ++ truncatedComments

def maxCommentLength : Nat := 15000

/-- The P1 `summarizeHandler`. -/
def summarizeHandler (env : Env) (req : Request) :
    Response × List NetCall :=
  if !truthy req.itemUrl then
    ({status := 400, error := some missingItemMsg}, [])
  else if !truthy env.apiKey then
    ({status := 500, error := some keyMissingMsg}, [])
  else
    let u := req.itemUrl.getD []
    match env.fetch u with
    | .err m =>
      ({status := 500, error := some processFailMsg, details := some m},
       [.httpGet u])
    | .ok _ html =>
      let comments := env.selectComments html
      if comments.length = 0 then
        ({status := 200, summary := some noCommentsMsg}, [.httpGet u])
      else
        let commentsText := V2.joinComments comments
        let truncated :=
          if commentsText.length > maxCommentLength then
            commentsText.take maxCommentLength ++ "...".data
          else commentsText
        let user := hnUserPrompt truncated
        match env.chatComplete hnSysPrompt user with
        | .error m =>
          ({status := 500, error := some processFailMsg, details := some m},
           [.httpGet u, .chatCall hnSysPrompt user])
        | .ok c =>
          ({status := 200,
            summary := some ((c.map trimList).getD noSummaryMsg)},
           [.httpGet u, .chatCall hnSysPrompt user])

end P1

/-! ## Claims about truncation (C2) -/

/-- Claim C2, counterexample. The claim says an input one character over the
ceiling is cut to exactly the ceiling length; the V2 article truncation
instead appends `'...'` after the 20000-character prefix, so a
20001-character input comes out 20003 characters long, not 20000. -/
theorem claim_C2_counterexample :
    (V2.truncateArticleContent (List.replicate 20001 'a')).length ≠ 20000 := by
  have hd : ("...".data).length = 3 := rfl
  have hlen : (List.replicate 20001 'a').length = 20001 := by
    rw [List.length_replicate]
  have h : V2.truncateArticleContent (List.replicate 20001 'a') =
      (List.replicate 20001 'a').take V2.maxArticleLength ++ "...".data := by
    unfold V2.truncateArticleContent
    rw [if_pos (by rw [hlen]; norm_num [V2.maxArticleLength])]
  rw [h, List.length_append, List.length_take, hlen, hd]
  norm_num [V2.maxArticleLength]

/-- Claim C2, amended. The V2 content truncation returns inputs at or below
the 20000-character ceiling unchanged; an input over the ceiling is cut to
the 20000-character prefix with `'...'` appended (length 20003, not the
ceiling length); and the truncation is idempotent. -/
theorem claim_C2 :
    (∀ l : Str, l.length ≤ V2.maxArticleLength →
      V2.truncateArticleContent l = l) ∧
    (∀ l : Str, l.length > V2.maxArticleLength →
      V2.truncateArticleContent l = l.take V2.maxArticleLength ++ "...".data ∧
      (V2.truncateArticleContent l).length = V2.maxArticleLength + 3) ∧
    (∀ l : Str,
      V2.truncateArticleContent (V2.truncateArticleContent l) =
        V2.truncateArticleContent l) := by
  have hd : ("...".data).length = 3 := rfl
  have hshort : ∀ l : Str, l.length ≤ V2.maxArticleLength →
      V2.truncateArticleContent l = l := by
    intro l h
    simp only [V2.truncateArticleContent]
    rw [if_neg (by omega)]
  have hlong : ∀ l : Str, l.length > V2.maxArticleLength →
      V2.truncateArticleContent l = l.take V2.maxArticleLength ++ "...".data := by
    intro l h
    simp only [V2.truncateArticleContent]
    rw [if_pos h]
  refine ⟨hshort, fun l h => ⟨hlong l h, ?_⟩, fun l => ?_⟩
  · rw [hlong l h]
    simp only [List.length_append, List.length_take, hd]
    omega
  · by_cases h : l.length ≤ V2.maxArticleLength
    · rw [hshort l h, hshort l h]
    · push_neg at h
      rw [hlong l h]
      have hlen : (l.take V2.maxArticleLength ++ "...".data).length =
          V2.maxArticleLength + 3 := by
        simp only [List.length_append, List.length_take, hd]
        omega
      rw [hlong _ (by omega)]
      have htk : (l.take V2.maxArticleLength ++ "...".data).take
          V2.maxArticleLength = l.take V2.maxArticleLength := by
        rw [List.take_append_of_le_length
          (by simp only [List.length_take]; omega)]
        rw [List.take_take]
        simp
      rw [htk]

/-- Witness for C2: a concrete short input is unchanged, and a concrete
20001-character input is cut to the 20000-character prefix plus `'...'`. -/
theorem claim_C2_witness :
    ("ab".data.length ≤ V2.maxArticleLength ∧
      V2.truncateArticleContent "ab".data = "ab".data) ∧
    ((List.replicate 20001 'a').length > V2.maxArticleLength ∧
      V2.truncateArticleContent (List.replicate 20001 'a') =
        (List.replicate 20001 'a').take V2.maxArticleLength ++ "...".data) := by
  have h1 : "ab".data.length ≤ V2.maxArticleLength := by
    norm_num [V2.maxArticleLength]
  have h2 : (List.replicate 20001 'a').length > V2.maxArticleLength := by
    rw [List.length_replicate]; norm_num [V2.maxArticleLength]
  exact ⟨⟨h1, claim_C2.1 _ h1⟩, ⟨h2, (claim_C2.2.1 _ h2).1⟩⟩

/-! ## Claims about the V2 request guards (C4, C5) -/

/-- Claim C4. A `POST /api/summarize` whose body is `{}` (no `itemUrl`, no
`articleUrl`) is answered `400` with an error message, under every
environment, with zero outbound network calls. -/
theorem claim_C4 (env : V2.Env) :
    V2.summarizeHandler env {itemUrl := none, articleUrl := none} =
      ({status := 400, body := {error := some V2.missingBothMsg}}, []) := rfl

/-- Claim C5. When the completion-service API key is absent from the
environment, every otherwise-valid request (at least one URL supplied) is
answered `500` with the configuration error, with zero outbound network
calls. -/
theorem claim_C5 (env : V2.Env) (req : V2.Request)
    (hkey : env.apiKey = none)
    (hvalid : truthy req.itemUrl = true ∨ truthy req.articleUrl = true) :
    V2.summarizeHandler env req =
      ({status := 500, body := {error := some V2.keyMissingMsg}}, []) := by
  have hc1 : (!truthy req.itemUrl && !truthy req.articleUrl) = false := by
    rcases hvalid with h | h <;> simp [h]
  have hc2 : truthy env.apiKey = false := by rw [hkey]; rfl
  simp only [V2.summarizeHandler, hc1, hc2, Bool.false_eq_true, if_false,
    Bool.not_false, if_true]

/-- Witness for C5: a concrete key-less environment and a request carrying
both URLs. -/
theorem claim_C5_witness :
    V2.summarizeHandler
      {apiKey := none,
       fetch := fun _ => .err "x".data,
       selectComments := fun _ => [],
       readability := fun _ _ => none,
       chatComplete := fun _ _ => none}
      {itemUrl := some "http://i".data, articleUrl := some "http://a".data} =
      ({status := 500, body := {error := some V2.keyMissingMsg}}, []) :=
  claim_C5 _ _ rfl (Or.inl (by decide))

/-! ## C6 — literal text is used directly, no article fetch -/

/-- Claim C6. Whenever a V1 summarize request carries literal text (a
non-empty `text` field), the handler performs exactly one network call —
the completion call, whose prompt embeds the text directly as the content —
and in particular performs no page fetch, even when `url` (or `itemUrl`) is
also present. -/
theorem claim_C6 (env : V1.Env) (req : V1.Request) (t : Str)
    (htext : req.text = some t) (hne : t ≠ []) :
    (V1.summarizeHandler env req).2 =
      [NetCall.completionCall
        (V1.buildPrompt req.summaryType t (jsOr req.url req.itemUrl))] ∧
    ∀ u, NetCall.httpGet u ∉ (V1.summarizeHandler env req).2 := by
  have htr : truthy req.text = true := by
    rw [htext]
    simpa [truthy, List.isEmpty_iff] using hne
  have htext0 : (if truthy req.text then req.text else none) = some t := by
    rw [htr, if_pos rfl, htext]
  have hmain : (V1.summarizeHandler env req).2 =
      [NetCall.completionCall
        (V1.buildPrompt req.summaryType t (jsOr req.url req.itemUrl))] := by
    unfold V1.summarizeHandler
    rw [htext0]
    simp only [Option.isNone_some, Bool.false_and, Bool.false_eq_true,
      if_false]
    unfold V1.summarizeStep
    cases henv : env.complete (V1.buildPrompt req.summaryType t (jsOr req.url req.itemUrl)) with
    | none => dsimp only; rw [henv]
    | some s => dsimp only; rw [henv]
  refine ⟨hmain, ?_⟩
  intro u hmem
  rw [hmain] at hmem
  simp at hmem

/-- Witness for C6: text plus a present article URL; only the completion
call happens. -/
theorem claim_C6_witness :
    (V1.summarizeHandler
      {fetch := fun _ => .err "down".data,
       readability := fun _ _ => none,
       complete := fun _ => some "S".data}
      {text := some "hello".data, url := some "http://a".data,
       itemUrl := none, summaryType := none}).2 =
      [NetCall.completionCall
        (V1.buildPrompt none "hello".data (some "http://a".data))] := by
  have h := claim_C6
    {fetch := fun _ => .err "down".data,
     readability := fun _ _ => none,
     complete := fun _ => some "S".data}
    {text := some "hello".data, url := some "http://a".data,
     itemUrl := none, summaryType := none}
    "hello".data rfl (by decide)
  exact h.1.trans (by norm_num [jsOr, truthy])

/-! ## C10 — empty comment selection answers early (P1) -/

/-- Claim C10. When the comment page is fetched successfully but contains no
`'.commtext'` element, the P1 handler answers success with the exact
placeholder summary and performs no completion-API call (its only network
call is the page fetch). -/
theorem claim_C10 (env : P1.Env) (u html : Str) (ct : Option Str)
    (hu : u ≠ []) (hkey : truthy env.apiKey = true)
    (hfetch : env.fetch u = .ok ct html)
    (hcomments : env.selectComments html = []) :
    P1.summarizeHandler env {itemUrl := some u} =
      ({status := 200, summary := some P1.noCommentsMsg}, [NetCall.httpGet u]) := by
  have htr : truthy (some u) = true := by
    simpa [truthy, List.isEmpty_iff] using hu
  unfold P1.summarizeHandler
  rw [show ({itemUrl := some u} : P1.Request).itemUrl = some u from rfl]
  rw [htr]
  simp only [Bool.not_true, Bool.false_eq_true, if_false, hkey, Option.getD_some]
  rw [hfetch]
  simp [hcomments]

/-- Witness for C10: a concrete environment whose page has no comments. -/
theorem claim_C10_witness :
    P1.summarizeHandler
      {apiKey := some "k".data,
       fetch := fun _ => .ok (some "text/html".data) "<html></html>".data,
       selectComments := fun _ => [],
       chatComplete := fun _ _ => .ok (some "S".data)}
      {itemUrl := some "http://item".data} =
      ({status := 200, summary := some P1.noCommentsMsg},
       [NetCall.httpGet "http://item".data]) :=
  claim_C10 _ "http://item".data "<html></html>".data
    (some "text/html".data) (by decide) rfl rfl rfl

/-! ## C9 — per-block summarization failure degrades to a placeholder -/

theorem processBlocks_llmSummary (env : Wiki.Env) (guid : Str)
    (date : Option Str) (links : List (Str × Str)) :
    ∀ (bs : List Str) (idx : Nat) (ev : Wiki.PEvent),
      ev ∈ Wiki.processBlocks env guid date links bs idx →
      env.complete (Wiki.blockPrompt ev.originalBlockText) = none →
      ev.llmSummary = Wiki.unavailableMsg := by
  intro bs
  induction bs with
  | nil => intro idx ev h; simp [Wiki.processBlocks] at h
  | cons b bs ih =>
    intro idx ev h hna
    rw [Wiki.processBlocks] at h
    by_cases he : (trimList b).isEmpty
    · rw [if_pos he] at h
      exact ih idx ev h hna
    · rw [if_neg he] at h
      rcases List.mem_cons.mp h with h1 | h1
      · subst h1
        simp only at hna ⊢
        rw [hna]
      · exact ih (idx + 1) ev h1 hna

/-- Claim C9. For any feed entries, the Wikipedia endpoint (with the feed
fetch succeeding) answers success with all entries' blocks processed, and
every event whose completion call failed carries the placeholder
`'Summary not available.'` as its summary — a per-block failure aborts
neither the remaining blocks nor the response. -/
theorem claim_C9 (env : Wiki.Env) (fallback : Str)
    (entries : List Wiki.Entry) :
    (Wiki.wikipediaDailyEvents env fallback (.ok entries)).status = 200 ∧
    (Wiki.wikipediaDailyEvents env fallback (.ok entries)).events =
      (entries.map (Wiki.processEntry env fallback)).flatten ∧
    ∀ ev ∈ (Wiki.wikipediaDailyEvents env fallback (.ok entries)).events,
      env.complete (Wiki.blockPrompt ev.originalBlockText) = none →
        ev.llmSummary = Wiki.unavailableMsg := by
  refine ⟨rfl, rfl, ?_⟩
  intro ev hev hna
  simp only [Wiki.wikipediaDailyEvents, List.mem_flatten, List.mem_map] at hev
  obtain ⟨evs, ⟨e, _, heq⟩, hin⟩ := hev
  subst heq
  unfold Wiki.processEntry at hin
  by_cases hc : truthy e.content
  · rw [hc] at hin
    simp only [Bool.not_true, Bool.false_eq_true, if_false] at hin
    exact processBlocks_llmSummary env _ _ _ _ _ ev hin hna
  · rw [Bool.not_eq_true] at hc
    rw [hc] at hin
    simp at hin

/-! ## C1 — partial success of the dual-summary handler -/

theorem truthy_ne_none {o : Option Str} (h : truthy o = true) : o ≠ none := by
  intro hn
  rw [hn] at h
  exact Bool.false_ne_true h

/-- On a valid, keyed request the V2 handler answers with exactly the two
independently computed summaries whenever at least one of them is truthy. -/
theorem summarizeHandler_success_shape (env : V2.Env) (req : V2.Request)
    (hi : truthy req.itemUrl = true) (hk : truthy env.apiKey = true)
    (hnb : (!truthy (V2.commentSummaryOf env req) &&
            !truthy (V2.articleSummaryOf env req)) = false) :
    (V2.summarizeHandler env req).1 =
      {status := 200,
       body := {commentSummary := V2.commentSummaryOf env req,
                articleSummary := V2.articleSummaryOf env req}} := by
  rcases hcf : V2.commentFetchPhase env (req.itemUrl.getD []) with ⟨ext, cerr, calls1⟩
  rcases hsa : V2.summarizeArticle env req.articleUrl with ⟨asum, calls2⟩
  have hcs : V2.commentSummaryOf env req =
      (if truthy ext then
        (env.chatComplete V2.commentSysPrompt (ext.getD [])).map trimList
       else none) := by
    unfold V2.commentSummaryOf
    rw [hi, if_pos rfl, hcf]
  have has : V2.articleSummaryOf env req = asum := by
    unfold V2.articleSummaryOf
    rw [hsa]
  rw [hcs, has] at hnb ⊢
  unfold V2.summarizeHandler
  have hc1 : (!truthy req.itemUrl && !truthy req.articleUrl) = false := by
    rw [hi]; rfl
  rw [hc1]
  simp only [Bool.false_eq_true, if_false, hk, Bool.not_true]
  rw [hi, if_pos rfl, hcf, hsa]
  by_cases hext : truthy ext = true
  · rw [hext] at hnb ⊢
    unfold V2.getOpenAISummary
    simp only [if_true] at hnb ⊢
    rw [hnb]
    simp
  · rw [Bool.not_eq_true] at hext
    rw [hext] at hnb ⊢
    simp only [Bool.false_eq_true, if_false] at hnb ⊢
    rw [hnb]
    simp

/-- Claim C1. Given both a comment-thread URL and an article URL (and a
configured key), when exactly one of the two fetch-extract-summarize
pipelines fails (its summary is `null`) while the other produces a summary,
the response is a `200` carrying exactly the successful summary, with the
other summary field and the error field absent — one source's failure never
aborts the other. -/
theorem claim_C1 (env : V2.Env) (req : V2.Request)
    (hi : truthy req.itemUrl = true) (ha : truthy req.articleUrl = true)
    (hk : truthy env.apiKey = true)
    (hone : (V2.commentSummaryOf env req = none ∧
              truthy (V2.articleSummaryOf env req) = true) ∨
            (truthy (V2.commentSummaryOf env req) = true ∧
              V2.articleSummaryOf env req = none)) :
    (V2.summarizeHandler env req).1.status = 200 ∧
    (V2.summarizeHandler env req).1.body.commentSummary =
      V2.commentSummaryOf env req ∧
    (V2.summarizeHandler env req).1.body.articleSummary =
      V2.articleSummaryOf env req ∧
    (V2.summarizeHandler env req).1.body.error = none ∧
    ((V2.summarizeHandler env req).1.body.commentSummary = none ∧
       (V2.summarizeHandler env req).1.body.articleSummary ≠ none ∨
     (V2.summarizeHandler env req).1.body.commentSummary ≠ none ∧
       (V2.summarizeHandler env req).1.body.articleSummary = none) := by
  have hnb : (!truthy (V2.commentSummaryOf env req) &&
      !truthy (V2.articleSummaryOf env req)) = false := by
    rcases hone with ⟨_, h⟩ | ⟨h, _⟩ <;> rw [h] <;> simp
  rw [summarizeHandler_success_shape env req hi hk hnb]
  refine ⟨rfl, rfl, rfl, rfl, ?_⟩
  rcases hone with ⟨hc, hat⟩ | ⟨hct, hat⟩
  · exact Or.inl ⟨hc, truthy_ne_none hat⟩
  · exact Or.inr ⟨truthy_ne_none hct, hat⟩

/-- Concrete V2 environment for the C1 witness: the comment page fetch and
chat summarization succeed, while the article fetch fails. -/
def envC1 : V2.Env :=
  {apiKey := some "k".data,
   fetch := fun u =>
     if u = "http://i".data then .ok (some "text/html".data) "H".data
     else .err "getaddrinfo ENOTFOUND".data,
   selectComments := fun _ => ["first comment".data],
   readability := fun _ _ => none,
   chatComplete := fun _ _ => some "Comment digest".data}

def reqC1 : V2.Request :=
  {itemUrl := some "http://i".data, articleUrl := some "http://a".data}

/-- Witness for C1: with `envC1`/`reqC1` the article pipeline fails, the
comment pipeline succeeds, and the handler answers `200` with only
`commentSummary` populated and no error. -/
theorem claim_C1_witness :
    (V2.summarizeHandler envC1 reqC1).1.status = 200 ∧
    (V2.summarizeHandler envC1 reqC1).1.body.commentSummary =
      some "Comment digest".data ∧
    (V2.summarizeHandler envC1 reqC1).1.body.articleSummary = none ∧
    (V2.summarizeHandler envC1 reqC1).1.body.error = none := by
  have h := claim_C1 envC1 reqC1 (by decide) (by decide) (by decide)
    (Or.inr ⟨by decide, by decide⟩)
  obtain ⟨h1, h2, h3, h4, _⟩ := h
  refine ⟨h1, ?_, ?_, h4⟩
  · rw [h2]; decide
  · rw [h3]; decide

/-! ## C7 — two blocks yield two indexed events -/

/-- The head of a `dropWhile` result fails the predicate. -/
theorem dropWhile_eq_cons_not (p : Char → Bool) :
    ∀ (l : Str) (c : Char) (rest : Str),
      l.dropWhile p = c :: rest → p c = false := by
  intro l
  induction l with
  | nil => intro c rest h; simp at h
  | cons a l ih =>
    intro c rest h
    by_cases hp : p a = true
    · rw [List.dropWhile_cons_of_pos hp] at h
      exact ih c rest h
    · rw [Bool.not_eq_true] at hp
      rw [List.dropWhile_cons_of_neg (by simp [hp])] at h
      injection h with h1 _
      rw [← h1]
      exact hp

/-- The head of a trimmed string is never whitespace. -/
theorem trimList_head_not_ws {l : Str} {c : Char} {rest : Str}
    (h : trimList l = c :: rest) : isWs c = false := by
  unfold trimList at h
  rcases List.dropWhile_suffix (l := (l.dropWhile isWs).reverse) isWs with ⟨pre, hpre⟩
  have hX : l.dropWhile isWs = c :: (rest ++ pre.reverse) := by
    have h2 : (l.dropWhile isWs).reverse.reverse =
        (pre ++ ((l.dropWhile isWs).reverse.dropWhile isWs)).reverse := by
      rw [hpre]
    rw [List.reverse_reverse, List.reverse_append, h] at h2
    simpa using h2
  exact dropWhile_eq_cons_not isWs l c _ hX

/-- A non-empty trimmed block has a non-empty first line
(`trimmedBlock.split('\n')[0]` is truthy). -/
theorem trim_firstLine_ne_empty {l : Str} (h : trimList l ≠ []) :
    ((trimList l).takeWhile (· ≠ '\n')).isEmpty = false := by
  rcases he : trimList l with _ | ⟨c, rest⟩
  · exact absurd he h
  · have hws := trimList_head_not_ws he
    have hc : c ≠ '\n' := by
      intro hcn
      rw [hcn] at hws
      simp [isWs] at hws
    simp [List.takeWhile_cons, hc]

/-- Claim C7. A feed with one entry whose content splits into exactly two
blocks with non-whitespace content yields exactly two events, with ids
`${guid}_event_0` and `${guid}_event_1` (distinct, each ending in its
index suffix) and with each `topicTitle` equal to the first line of the
corresponding trimmed block. -/
theorem claim_C7 (env : Wiki.Env) (fallback : Str) (e : Wiki.Entry)
    (c b1 b2 : Str)
    (hc : e.content = some c)
    (hsplit : splitBlocks (stripHtml c) = [b1, b2])
    (h1 : trimList b1 ≠ []) (h2 : trimList b2 ≠ []) :
    (Wiki.wikipediaDailyEvents env fallback (.ok [e])).events.map
        (fun ev => (ev.id, ev.topicTitle)) =
      [(Wiki.resolvedGuid fallback e ++ "_event_0".data,
        (trimList b1).takeWhile (· ≠ '\n')),
       (Wiki.resolvedGuid fallback e ++ "_event_1".data,
        (trimList b2).takeWhile (· ≠ '\n'))] ∧
    List.IsSuffix "_event_0".data (Wiki.resolvedGuid fallback e ++ "_event_0".data) ∧
    List.IsSuffix "_event_1".data (Wiki.resolvedGuid fallback e ++ "_event_1".data) ∧
    Wiki.resolvedGuid fallback e ++ "_event_0".data ≠
      Wiki.resolvedGuid fallback e ++ "_event_1".data := by
  have hcne : c ≠ [] := by
    intro hnil
    rw [hnil] at hsplit
    simp [stripHtml, stripGo, splitBlocks, splitRunOut, splitConsume,
      splitFlush] at hsplit
  have htr : truthy e.content = true := by
    rw [hc]
    simpa [truthy, List.isEmpty_iff] using hcne
  have he1 : (trimList b1).isEmpty = false := by
    simpa [List.isEmpty_iff] using h1
  have he2 : (trimList b2).isEmpty = false := by
    simpa [List.isEmpty_iff] using h2
  have hevents : (Wiki.wikipediaDailyEvents env fallback (.ok [e])).events =
      Wiki.processBlocks env (Wiki.resolvedGuid fallback e)
        (jsOr e.pubDate e.isoDate) (env.linksOf c) [b1, b2] 0 := by
    show (([e].map (Wiki.processEntry env fallback)).flatten) = _
    simp only [List.map_cons, List.map_nil, List.flatten]
    rw [List.append_nil]
    unfold Wiki.processEntry
    rw [htr]
    simp only [Bool.not_true, Bool.false_eq_true, if_false]
    rw [hc]
    simp only [Option.getD_some]
    rw [hsplit]
  have ht1 : jsOrStr ((trimList b1).takeWhile (· ≠ '\n')) Wiki.untitledMsg =
      (trimList b1).takeWhile (· ≠ '\n') := by
    unfold jsOrStr
    rw [trim_firstLine_ne_empty h1]
    simp
  have ht2 : jsOrStr ((trimList b2).takeWhile (· ≠ '\n')) Wiki.untitledMsg =
      (trimList b2).takeWhile (· ≠ '\n') := by
    unfold jsOrStr
    rw [trim_firstLine_ne_empty h2]
    simp
  have hid0 : (Wiki.resolvedGuid fallback e ++ "_event_".data) ++ natStr 0 =
      Wiki.resolvedGuid fallback e ++ "_event_0".data := by
    rw [List.append_assoc]; rfl
  have hid1 : (Wiki.resolvedGuid fallback e ++ "_event_".data) ++ natStr (0 + 1) =
      Wiki.resolvedGuid fallback e ++ "_event_1".data := by
    rw [List.append_assoc]; rfl
  refine ⟨?_, ⟨_, rfl⟩, ⟨_, rfl⟩, ?_⟩
  · rw [hevents]
    simp only [Wiki.processBlocks, he1, he2, Bool.false_eq_true, if_false,
      List.map_cons, List.map_nil]
    rw [ht1, ht2, hid0, hid1]
  · intro heq
    have := List.append_cancel_left heq
    simp at this

/-- Concrete Wikipedia environment for the C7 witness. -/
def envC7 : Wiki.Env :=
  {complete := fun _ => some "short summary".data, linksOf := fun _ => []}

/-- A daily entry whose HTML content strips to two blank-line-separated
blocks. -/
def entryC7 : Wiki.Entry :=
  {guid := some "G".data, id := none,
   content := some "<p>Alpha news</p>\n\n<p>Beta news</p>".data,
   pubDate := some "2025-05-01".data, isoDate := none}

/-- Witness for C7 at a concrete entry: the split hypothesis holds and the
two events carry the expected ids and topic titles. -/
theorem claim_C7_witness :
    splitBlocks (stripHtml "<p>Alpha news</p>\n\n<p>Beta news</p>".data) =
      ["Alpha news".data, "Beta news".data] ∧
    (Wiki.wikipediaDailyEvents envC7 "now".data (.ok [entryC7])).events.map
        (fun ev => (ev.id, ev.topicTitle)) =
      [(Wiki.resolvedGuid "now".data entryC7 ++ "_event_0".data,
        (trimList "Alpha news".data).takeWhile (· ≠ '\n')),
       (Wiki.resolvedGuid "now".data entryC7 ++ "_event_1".data,
        (trimList "Beta news".data).takeWhile (· ≠ '\n'))] := by
  have hs : splitBlocks (stripHtml "<p>Alpha news</p>\n\n<p>Beta news</p>".data) =
      ["Alpha news".data, "Beta news".data] := by decide
  exact ⟨hs, (claim_C7 envC7 "now".data entryC7 _ _ _ rfl hs (by decide)
    (by decide)).1⟩

/-- Concrete environment for the C9 witness: every completion call fails. -/
def envC9 : Wiki.Env :=
  {complete := fun _ => none, linksOf := fun _ => []}

def entryC9 : Wiki.Entry :=
  {guid := some "G".data, id := none,
   content := some "Hello topic\n\nWorld topic".data,
   pubDate := some "2025-05-01".data, isoDate := none}

/-- The first event produced from `entryC9` under `envC9`. -/
def evC9 : Wiki.PEvent :=
  {id := "G_event_0".data, date := some "2025-05-01".data,
   topicTitle := "Hello topic".data, llmSummary := Wiki.unavailableMsg,
   originalBlockText := "Hello topic".data, sourceLinks := []}

/-- Witness for C9: with a failing completion oracle the endpoint still
answers `200`, the event is present, and its summary is the placeholder. -/
theorem claim_C9_witness :
    (Wiki.wikipediaDailyEvents envC9 "now".data (.ok [entryC9])).status = 200 ∧
    evC9 ∈ (Wiki.wikipediaDailyEvents envC9 "now".data (.ok [entryC9])).events ∧
    evC9.llmSummary = Wiki.unavailableMsg := by
  have hmem : evC9 ∈ (Wiki.wikipediaDailyEvents envC9 "now".data
      (.ok [entryC9])).events := by decide
  exact ⟨(claim_C9 envC9 "now".data [entryC9]).1,
    hmem,
    (claim_C9 envC9 "now".data [entryC9]).2.2 evC9 hmem rfl⟩

/-! ## C8 — the block splitter refines the spec's paragraph model

The proof proceeds in three steps: (1) the block loop keeps exactly the
non-whitespace blocks, trimmed, in order; (2) the character-level splitter
equals the line-level `blocksOfLines` on the line decomposition; (3) the
trimmed, filtered line-level blocks equal the trimmed paragraph groups. -/

/-- Trimming kills an all-whitespace string. -/
theorem trimList_eq_nil_iff (l : Str) :
    trimList l = [] ↔ ∀ c ∈ l, isWs c = true := by
  unfold trimList
  constructor
  · intro h
    have hy : (l.dropWhile isWs).reverse.dropWhile isWs = [] := by
      have := congrArg List.reverse h
      simpa using this
    have hx : l.dropWhile isWs = [] := by
      rcases hX : l.dropWhile isWs with _ | ⟨c, rest⟩
      · rfl
      · have hcw : isWs c = false := dropWhile_eq_cons_not isWs l c rest hX
        have : ∀ x ∈ (l.dropWhile isWs).reverse, isWs x = true :=
          List.dropWhile_eq_nil_iff.mp hy
        have hc : isWs c = true := by
          refine this c ?_
          rw [hX]; simp
        rw [hcw] at hc
        exact absurd hc (by simp)
    exact List.dropWhile_eq_nil_iff.mp (by simpa using hx)
  · intro h
    have hx : l.dropWhile isWs = [] := List.dropWhile_eq_nil_iff.mpr h
    rw [hx]
    rfl

/-- Trimming ignores an all-whitespace suffix. -/
theorem trimList_append_ws (x suf : Str) (h : ∀ c ∈ suf, isWs c = true) :
    trimList (x ++ suf) = trimList x := by
  unfold trimList
  rw [List.dropWhile_append]
  by_cases hx : (x.dropWhile isWs).isEmpty
  · rw [if_pos hx]
    have h1 : suf.dropWhile isWs = [] := List.dropWhile_eq_nil_iff.mpr h
    have h2 : x.dropWhile isWs = [] := by
      rwa [List.isEmpty_iff] at hx
    rw [h1, h2]
  · rw [if_neg hx]
    rw [List.reverse_append, List.dropWhile_append]
    have h1 : suf.reverse.dropWhile isWs = [] :=
      List.dropWhile_eq_nil_iff.mpr (by simpa using h)
    rw [h1]
    simp

/-- Trimming ignores an all-whitespace prefix. -/
theorem trimList_ws_append (pre x : Str) (h : ∀ c ∈ pre, isWs c = true) :
    trimList (pre ++ x) = trimList x := by
  unfold trimList
  rw [List.dropWhile_append]
  have h1 : pre.dropWhile isWs = [] := List.dropWhile_eq_nil_iff.mpr h
  rw [h1]
  simp

/-- The trimmed, nonempty blocks, in order. -/
def trimFilter (bs : List Str) : List Str :=
  (bs.map trimList).filter (· ≠ [])

/-- The trimmed nonempty paragraph groups, in order. -/
def paraUnits (gs : List (List Str)) : List Str :=
  (gs.filter (· ≠ [])).map (fun g => trimList (joinNl g))

theorem trimFilter_cons (b : Str) (bs : List Str) :
    trimFilter (b :: bs) =
      if trimList b = [] then trimFilter bs
      else trimList b :: trimFilter bs := by
  unfold trimFilter
  rw [List.map_cons, List.filter_cons]
  by_cases h : trimList b = []
  · rw [if_pos h, if_neg (by simp [h])]
  · rw [if_neg h, if_pos (by simp [h])]

theorem paraSplit_ne_nil (ls : List Str) : paraSplit ls ≠ [] := by
  cases ls with
  | nil => simp [paraSplit]
  | cons l ls =>
    unfold paraSplit
    by_cases h : isBlankLine l = true
    · rw [if_pos h]; simp
    · rw [if_neg h]
      rcases hps : paraSplit ls with _ | ⟨g, gs⟩
      · exact absurd hps (paraSplit_ne_nil ls)
      · simp

/-- Every line stored in a paragraph group is non-blank. -/
theorem paraSplit_groups_nonblank (ls : List Str) :
    ∀ g ∈ paraSplit ls, ∀ l ∈ g, isBlankLine l = false := by
  induction ls with
  | nil => intro g hg l hl; simp [paraSplit] at hg; subst hg; simp at hl
  | cons a ls ih =>
    intro g hg l hl
    unfold paraSplit at hg
    by_cases h : isBlankLine a = true
    · rw [if_pos h] at hg
      rcases List.mem_cons.mp hg with h1 | h1
      · subst h1; simp at hl
      · exact ih g h1 l hl
    · rw [if_neg h] at hg
      rcases hps : paraSplit ls with _ | ⟨g0, gs⟩
      · exact absurd hps (paraSplit_ne_nil ls)
      · rw [hps, List.modifyHead_cons] at hg
        rcases List.mem_cons.mp hg with h1 | h1
        · subst h1
          rcases List.mem_cons.mp hl with h2 | h2
          · subst h2; simpa using h
          · exact ih g0 (by rw [hps]; simp) l h2
        · exact ih g (by rw [hps]; simp [h1]) l hl

/-- Relates `joinNl (L :: g) = L ++ joinGroup g` where `joinGroup` is the glue a
group contributes when appended to existing content. -/
def joinGroup : List Str → Str
  | [] => []
  | g => '\n' :: joinNl g

theorem joinNl_cons (L : Str) (g : List Str) :
    joinNl (L :: g) = L ++ joinGroup g := by
  cases g with
  | nil => simp [joinNl, joinGroup]
  | cons h t => simp [joinNl, joinGroup]

theorem paraUnits_nil_group (gs : List (List Str)) :
    paraUnits ([] :: gs) = paraUnits gs := by
  simp [paraUnits]

theorem paraUnits_cons_group (a : Str) (g : List Str) (gs : List (List Str)) :
    paraUnits ((a :: g) :: gs) =
      trimList (joinNl (a :: g)) :: paraUnits gs := by
  simp [paraUnits]

/-- A blank line trims to nothing. -/
theorem trim_blank_nil {a : Str} (h : isBlankLine a = true) : trimList a = [] := by
  rw [trimList_eq_nil_iff]
  unfold isBlankLine at h
  exact List.all_eq_true.mp h

/-- A non-blank line makes any string containing it trim to something. -/
theorem trim_nonblank_append_ne {a : Str} (y : Str)
    (h : isBlankLine a = false) : trimList (a ++ y) ≠ [] := by
  intro hnil
  have hall := (trimList_eq_nil_iff _).mp hnil
  have : a.all isWs = true := by
    rw [List.all_eq_true]
    intro x hx
    exact hall x (List.mem_append_left _ hx)
  unfold isBlankLine at h
  rw [h] at this
  exact absurd this (by simp)

/-- Whitespace suffix shape `'\n' :: blankLine`. -/
theorem trim_append_nl_blank (acc : Str) {a : Str}
    (h : isBlankLine a = true) :
    trimList (acc ++ '\n' :: a) = trimList acc := by
  refine trimList_append_ws acc ('\n' :: a) ?_
  intro c hc
  rcases List.mem_cons.mp hc with h1 | h1
  · subst h1; rfl
  · exact List.all_eq_true.mp h c h1

/-- The line-level blocks, trimmed and filtered, are exactly the trimmed
paragraph groups (joint invariant for `goB`/`goS`). -/
theorem goB_goS_units (ls : List Str) :
    (∀ acc : Str, trimFilter (goB acc ls) =
      (if trimList (acc ++ joinGroup ((paraSplit ls).headD [])) = [] then
         paraUnits ((paraSplit ls).tail)
       else trimList (acc ++ joinGroup ((paraSplit ls).headD [])) ::
         paraUnits ((paraSplit ls).tail))) ∧
    (ls ≠ [] → trimFilter (goS ls) = paraUnits (paraSplit ls)) := by
  induction ls with
  | nil =>
    refine ⟨fun acc => ?_, fun h => absurd rfl h⟩
    show trimFilter [acc] = _
    rw [trimFilter_cons acc []]
    simp only [paraSplit, List.headD_cons, List.tail_cons, joinGroup,
      List.append_nil]
    rfl
  | cons a ls ih =>
    constructor
    · intro acc
      by_cases hb : isBlankLine a = true
      · cases ls with
        | nil =>
          have hgo : goB acc [a] = [acc ++ '\n' :: a] := by
            simp [goB, hb]
          rw [hgo, trimFilter_cons, trim_append_nl_blank acc hb]
          simp only [paraSplit, hb, if_true, List.headD_cons, List.tail_cons,
            joinGroup, List.append_nil]
          rfl
        | cons h t =>
          have hgo : goB acc (a :: h :: t) = acc :: goS (h :: t) := by
            simp [goB, hb]
          rw [hgo, trimFilter_cons, ih.2 (by simp)]
          simp only [paraSplit, hb, if_true, List.headD_cons, List.tail_cons,
            joinGroup, List.append_nil]
      · rw [Bool.not_eq_true] at hb
        have hgo : goB acc (a :: ls) = goB (acc ++ '\n' :: a) ls := by
          simp [goB, hb]
        rw [hgo, ih.1 (acc ++ '\n' :: a)]
        rcases hps : paraSplit ls with _ | ⟨g0, gs⟩
        · exact absurd hps (paraSplit_ne_nil ls)
        · have hps2 : paraSplit (a :: ls) = (a :: g0) :: gs := by
            simp [paraSplit, hb, hps]
          rw [hps2]
          simp only [List.headD_cons, List.tail_cons]
          have harg : (acc ++ '\n' :: a) ++ joinGroup g0 =
              acc ++ joinGroup (a :: g0) := by
            have hjg : joinGroup (a :: g0) = '\n' :: joinNl (a :: g0) := by
              cases g0 <;> rfl
            rw [hjg, joinNl_cons, List.append_assoc]
            rfl
          rw [harg]
    · intro _
      by_cases hb : isBlankLine a = true
      · cases ls with
        | nil =>
          have hgo : goS [a] = [a] := by
            simp [goS, hb]
          rw [hgo, trimFilter_cons, if_pos (trim_blank_nil hb)]
          simp only [paraSplit, hb, if_true]
          rw [paraUnits_nil_group, paraUnits_nil_group]
          rfl
        | cons h t =>
          have hgo : goS (a :: h :: t) = goS (h :: t) := by
            simp [goS, hb]
          rw [hgo, ih.2 (by simp)]
          simp only [paraSplit, hb, if_true]
          rw [paraUnits_nil_group]
      · rw [Bool.not_eq_true] at hb
        have hgo : goS (a :: ls) = goB a ls := by
          simp [goS, hb]
        rw [hgo, ih.1 a]
        rcases hps : paraSplit ls with _ | ⟨g0, gs⟩
        · exact absurd hps (paraSplit_ne_nil ls)
        · have hps2 : paraSplit (a :: ls) = (a :: g0) :: gs := by
            simp [paraSplit, hb, hps]
          rw [hps2, paraUnits_cons_group]
          simp only [List.headD_cons, List.tail_cons]
          rw [joinNl_cons, if_neg (trim_nonblank_append_ne _ hb)]

/-- Leading blank line plus newline stripped by trim. -/
theorem trim_blank_nl_append {a : Str} (y : Str) (h : isBlankLine a = true) :
    trimList (a ++ '\n' :: y) = trimList y := by
  rw [List.append_cons]
  rw [show (a ++ ['\n']) ++ y = (a ++ ['\n']) ++ y from rfl]
  refine trimList_ws_append (a ++ ['\n']) y ?_
  intro c hc
  rcases List.mem_append.mp hc with h1 | h1
  · exact List.all_eq_true.mp h c h1
  · rcases List.mem_singleton.mp h1 with rfl
    rfl

/-- Step (3): trimmed, filtered line-level blocks are the trimmed
paragraphs. -/
theorem blocksOfLines_units (ls : List Str) :
    trimFilter (blocksOfLines ls) = paraUnits (paraSplit ls) := by
  cases ls with
  | nil => rfl
  | cons a ls =>
    show trimFilter (goB a ls) = _
    rw [(goB_goS_units ls).1 a]
    rcases hps : paraSplit ls with _ | ⟨g0, gs⟩
    · exact absurd hps (paraSplit_ne_nil ls)
    · by_cases hb : isBlankLine a = true
      · have hps2 : paraSplit (a :: ls) = [] :: g0 :: gs := by
          simp [paraSplit, hb, hps]
        rw [hps2, paraUnits_nil_group]
        simp only [List.headD_cons, List.tail_cons]
        cases g0 with
        | nil =>
          rw [show joinGroup ([] : List Str) = [] from rfl, List.append_nil]
          rw [if_pos (trim_blank_nil hb), paraUnits_nil_group]
        | cons x g0 =>
          have hjg : joinGroup (x :: g0) = '\n' :: joinNl (x :: g0) := by
            cases g0 <;> rfl
          rw [hjg, trim_blank_nl_append _ hb, paraUnits_cons_group]
          have hxnb : isBlankLine x = false := by
            refine paraSplit_groups_nonblank ls (x :: g0) ?_ x ?_
            · rw [hps]; simp
            · simp
          rw [joinNl_cons]
          rw [if_neg (trim_nonblank_append_ne _ hxnb)]
      · rw [Bool.not_eq_true] at hb
        have hps2 : paraSplit (a :: ls) = (a :: g0) :: gs := by
          simp [paraSplit, hb, hps]
        rw [hps2, paraUnits_cons_group]
        simp only [List.headD_cons, List.tail_cons]
        rw [joinNl_cons, if_neg (trim_nonblank_append_ne _ hb)]

/-! Step (2): the character-level splitter agrees with `blocksOfLines` on
the line decomposition. -/

theorem splitConsume_append (a b : Str) (st : SplitState) :
    splitConsume (a ++ b) st =
      ((splitConsume a st).1 ++ (splitConsume b (splitConsume a st).2).1,
       (splitConsume b (splitConsume a st).2).2) := by
  induction a generalizing st with
  | nil => simp [splitConsume]
  | cons c a ih =>
    simp only [List.cons_append, splitConsume, List.append_eq]
    rw [ih (splitStep c st).2]
    simp [List.append_assoc]

theorem splitRunOut_append (a b : Str) (st : SplitState) :
    splitRunOut (a ++ b) st =
      (splitConsume a st).1 ++ splitRunOut b (splitConsume a st).2 := by
  unfold splitRunOut
  rw [splitConsume_append]
  simp [List.append_assoc]

theorem splitRunOut_cons (c : Char) (s : Str) (st : SplitState) :
    splitRunOut (c :: s) st =
      (splitStep c st).1 ++ splitRunOut s (splitStep c st).2 := by
  unfold splitRunOut
  simp only [splitConsume]
  simp [List.append_assoc]

theorem consume_line_inBlock (L : Str) (h : '\n' ∉ L) (acc : Str) :
    splitConsume L (.inBlock acc) = ([], .inBlock (L.reverse ++ acc)) := by
  induction L generalizing acc with
  | nil => simp [splitConsume]
  | cons c R ih =>
    have hc : c ≠ '\n' := fun he => h (he ▸ List.mem_cons_self c R)
    have hR : '\n' ∉ R := fun hm => h (List.mem_cons_of_mem _ hm)
    simp only [splitConsume, splitStep, if_neg hc]
    rw [ih hR (c :: acc)]
    simp

theorem consume_line_sawNl_blank (L : Str) (h : '\n' ∉ L)
    (hws : L.all isWs = true) (acc pend : Str) :
    splitConsume L (.sawNl acc pend) = ([], .sawNl acc (L.reverse ++ pend)) := by
  induction L generalizing pend with
  | nil => simp [splitConsume]
  | cons c R ih =>
    have hc : c ≠ '\n' := fun he => h (he ▸ List.mem_cons_self c R)
    have hR : '\n' ∉ R := fun hm => h (List.mem_cons_of_mem _ hm)
    have hcw : isWs c = true := List.all_eq_true.mp hws c (List.mem_cons_self c R)
    have hRw : R.all isWs = true := by
      rw [List.all_eq_true]
      intro x hx
      exact List.all_eq_true.mp hws x (List.mem_cons_of_mem _ hx)
    simp only [splitConsume, splitStep, if_neg hc, hcw, if_true]
    rw [ih hR hRw (c :: pend)]
    simp

theorem consume_line_sawNl_nonblank (L : Str) (h : '\n' ∉ L)
    (hnb : L.all isWs = false) (acc pend : Str) :
    splitConsume L (.sawNl acc pend) =
      ([], .inBlock (L.reverse ++ (pend ++ acc))) := by
  induction L generalizing pend with
  | nil => simp at hnb
  | cons c R ih =>
    have hc : c ≠ '\n' := fun he => h (he ▸ List.mem_cons_self c R)
    have hR : '\n' ∉ R := fun hm => h (List.mem_cons_of_mem _ hm)
    by_cases hcw : isWs c = true
    · have hRnb : R.all isWs = false := by
        rcases hall : R.all isWs with _ | _
        · rfl
        · exfalso
          have : (c :: R).all isWs = true := by
            rw [List.all_cons, hcw, hall]
            rfl
          rw [this] at hnb
          exact absurd hnb (by simp)
      simp only [splitConsume, splitStep, if_neg hc, hcw, if_true]
      rw [ih hR hRnb (c :: pend)]
      simp [List.append_assoc]
    · rw [Bool.not_eq_true] at hcw
      simp only [splitConsume, splitStep, if_neg hc, hcw, Bool.false_eq_true,
        if_false]
      rw [consume_line_inBlock R hR (c :: (pend ++ acc))]
      simp [List.append_assoc]

theorem consume_line_inSep_blank (L : Str) (h : '\n' ∉ L)
    (hws : L.all isWs = true) (pend : Str) :
    splitConsume L (.inSep pend) = ([], .inSep (L.reverse ++ pend)) := by
  induction L generalizing pend with
  | nil => simp [splitConsume]
  | cons c R ih =>
    have hc : c ≠ '\n' := fun he => h (he ▸ List.mem_cons_self c R)
    have hR : '\n' ∉ R := fun hm => h (List.mem_cons_of_mem _ hm)
    have hcw : isWs c = true := List.all_eq_true.mp hws c (List.mem_cons_self c R)
    have hRw : R.all isWs = true := by
      rw [List.all_eq_true]
      intro x hx
      exact List.all_eq_true.mp hws x (List.mem_cons_of_mem _ hx)
    simp only [splitConsume, splitStep, if_neg hc, hcw, if_true]
    rw [ih hR hRw (c :: pend)]
    simp

theorem consume_line_inSep_nonblank (L : Str) (h : '\n' ∉ L)
    (hnb : L.all isWs = false) (pend : Str) :
    splitConsume L (.inSep pend) = ([], .inBlock (L.reverse ++ pend)) := by
  induction L generalizing pend with
  | nil => simp at hnb
  | cons c R ih =>
    have hc : c ≠ '\n' := fun he => h (he ▸ List.mem_cons_self c R)
    have hR : '\n' ∉ R := fun hm => h (List.mem_cons_of_mem _ hm)
    by_cases hcw : isWs c = true
    · have hRnb : R.all isWs = false := by
        rcases hall : R.all isWs with _ | _
        · rfl
        · exfalso
          have : (c :: R).all isWs = true := by
            rw [List.all_cons, hcw, hall]
            rfl
          rw [this] at hnb
          exact absurd hnb (by simp)
      simp only [splitConsume, splitStep, if_neg hc, hcw, if_true]
      rw [ih hR hRnb (c :: pend)]
      simp [List.append_assoc]
    · rw [Bool.not_eq_true] at hcw
      simp only [splitConsume, splitStep, if_neg hc, hcw, Bool.false_eq_true,
        if_false]
      rw [consume_line_inBlock R hR (c :: pend)]
      simp [List.append_assoc]

theorem jsLines_ne_nil (s : Str) : jsLines s ≠ [] := by
  cases s with
  | nil => simp [jsLines]
  | cons c rest =>
    unfold jsLines
    by_cases h : c = '\n'
    · rw [if_pos h]; simp
    · rw [if_neg h]
      rcases hj : jsLines rest with _ | ⟨l, ls⟩ <;> simp

theorem jsLines_no_nl (s : Str) : ∀ L ∈ jsLines s, '\n' ∉ L := by
  induction s with
  | nil =>
    intro L hL
    simp only [jsLines, List.mem_singleton] at hL
    subst hL
    simp
  | cons c rest ih =>
    intro L hL
    unfold jsLines at hL
    by_cases h : c = '\n'
    · rw [if_pos h] at hL
      rcases List.mem_cons.mp hL with h1 | h1
      · subst h1; simp
      · exact ih L h1
    · rw [if_neg h] at hL
      rcases hj : jsLines rest with _ | ⟨l, ls⟩
      · exact absurd hj (jsLines_ne_nil rest)
      · rw [hj] at hL
        rcases List.mem_cons.mp hL with h1 | h1
        · subst h1
          intro hmem
          rcases List.mem_cons.mp hmem with h2 | h2
          · exact h h2.symm
          · exact ih l (by rw [hj]; simp) h2
        · exact ih L (by rw [hj]; simp [h1])

theorem joinNl_cons_cons (x y : Str) (ls : List Str) :
    joinNl (x :: y :: ls) = x ++ '\n' :: joinNl (y :: ls) := rfl

theorem joinNl_cons_head (c : Char) (l : Str) (ls : List Str) :
    joinNl ((c :: l) :: ls) = c :: joinNl (l :: ls) := by
  cases ls with
  | nil => rfl
  | cons y t => rw [joinNl_cons_cons, joinNl_cons_cons]; rfl

theorem joinNl_jsLines (s : Str) : joinNl (jsLines s) = s := by
  induction s with
  | nil => rfl
  | cons c rest ih =>
    unfold jsLines
    by_cases h : c = '\n'
    · rw [if_pos h]
      subst h
      rcases hj : jsLines rest with _ | ⟨l, ls⟩
      · exact absurd hj (jsLines_ne_nil rest)
      · rw [joinNl_cons_cons, List.nil_append, ← hj, ih]
    · rw [if_neg h]
      rcases hj : jsLines rest with _ | ⟨l, ls⟩
      · exact absurd hj (jsLines_ne_nil rest)
      · show joinNl ((c :: l) :: ls) = c :: rest
        rw [joinNl_cons_head, ← hj, ih]

/-- Running the splitter over `'\n'`-free lines joined by `'\n'`, from the
two line-boundary states, agrees with the line-level scan. -/
theorem runOut_lines (ls : List Str) :
    (∀ L ∈ ls, '\n' ∉ L) →
    ((ls ≠ [] → ∀ acc : Str,
        splitRunOut (joinNl ls) (.sawNl acc ['\n']) = goB acc.reverse ls) ∧
     (ls ≠ [] → splitRunOut (joinNl ls) (.inSep []) = goS ls)) := by
  induction ls with
  | nil => exact fun _ => ⟨fun h => absurd rfl h, fun h => absurd rfl h⟩
  | cons L ls2 ih =>
    intro hnl
    have hL : '\n' ∉ L := hnl L (List.mem_cons_self _ _)
    have hls2 : ∀ x ∈ ls2, '\n' ∉ x :=
      fun x hx => hnl x (List.mem_cons_of_mem _ hx)
    cases ls2 with
    | nil =>
      refine ⟨fun _ acc => ?_, fun _ => ?_⟩
      · show splitRunOut L (.sawNl acc ['\n']) = goB acc.reverse [L]
        by_cases hbw : L.all isWs = true
        · unfold splitRunOut
          rw [consume_line_sawNl_blank L hL hbw acc ['\n']]
          simp [splitFlush, goB, isBlankLine, hbw]
        · rw [Bool.not_eq_true] at hbw
          unfold splitRunOut
          rw [consume_line_sawNl_nonblank L hL hbw acc ['\n']]
          simp [splitFlush, goB, isBlankLine, hbw]
      · show splitRunOut L (.inSep []) = goS [L]
        by_cases hbw : L.all isWs = true
        · unfold splitRunOut
          rw [consume_line_inSep_blank L hL hbw []]
          simp [splitFlush, goS, isBlankLine, hbw]
        · rw [Bool.not_eq_true] at hbw
          unfold splitRunOut
          rw [consume_line_inSep_nonblank L hL hbw []]
          simp [splitFlush, goS, goB, isBlankLine, hbw]
    | cons h t =>
      have ihp := ih hls2
      refine ⟨fun _ acc => ?_, fun _ => ?_⟩
      · rw [joinNl_cons_cons, splitRunOut_append]
        by_cases hbw : L.all isWs = true
        · rw [consume_line_sawNl_blank L hL hbw acc ['\n']]
          simp only [List.nil_append]
          rw [splitRunOut_cons]
          simp only [splitStep, if_pos rfl, if_true]
          rw [ihp.2 (by simp)]
          simp [goB, isBlankLine, hbw]
        · rw [Bool.not_eq_true] at hbw
          rw [consume_line_sawNl_nonblank L hL hbw acc ['\n']]
          simp only [List.nil_append]
          rw [splitRunOut_cons]
          simp only [splitStep, if_pos rfl, if_true]
          rw [ihp.1 (by simp) (L.reverse ++ (['\n'] ++ acc))]
          simp [goB, isBlankLine, hbw, List.append_assoc]
      · rw [joinNl_cons_cons, splitRunOut_append]
        by_cases hbw : L.all isWs = true
        · rw [consume_line_inSep_blank L hL hbw []]
          simp only [List.nil_append]
          rw [splitRunOut_cons]
          simp only [splitStep, if_pos rfl, if_true]
          rw [ihp.2 (by simp)]
          simp [goS, isBlankLine, hbw]
        · rw [Bool.not_eq_true] at hbw
          rw [consume_line_inSep_nonblank L hL hbw []]
          simp only [List.nil_append]
          rw [splitRunOut_cons]
          simp only [splitStep, if_pos rfl, if_true]
          rw [ihp.1 (by simp) (L.reverse ++ [])]
          simp [goS, isBlankLine, hbw]

/-- Step (2): the regex splitter equals the line-level scan. -/
theorem splitBlocks_eq_blocksOfLines (s : Str) :
    splitBlocks s = blocksOfLines (jsLines s) := by
  rcases hjs : jsLines s with _ | ⟨L, ls⟩
  · exact absurd hjs (jsLines_ne_nil s)
  · have hs : s = joinNl (L :: ls) := by
      conv_lhs => rw [← joinNl_jsLines s, hjs]
    have hL : '\n' ∉ L := jsLines_no_nl s L (by rw [hjs]; simp)
    have hls : ∀ x ∈ ls, '\n' ∉ x :=
      fun x hx => jsLines_no_nl s x (by rw [hjs]; simp [hx])
    cases ls with
    | nil =>
      unfold splitBlocks
      rw [hs]
      show splitRunOut L (.inBlock []) = goB L []
      unfold splitRunOut
      rw [consume_line_inBlock L hL []]
      simp [splitFlush, goB]
    | cons h t =>
      unfold splitBlocks
      rw [hs, joinNl_cons_cons]
      show splitRunOut (L ++ '\n' :: joinNl (h :: t)) (.inBlock []) = goB L (h :: t)
      rw [splitRunOut_append, consume_line_inBlock L hL []]
      simp only [List.nil_append]
      rw [splitRunOut_cons]
      simp only [splitStep, if_pos rfl, if_true]
      rw [(runOut_lines (h :: t) hls).1 (by simp) (L.reverse ++ [])]
      simp

/-- Step (1): the block loop keeps exactly the non-whitespace blocks,
trimmed, in order (regardless of the starting index and oracles). -/
theorem processBlocks_origText (env : Wiki.Env) (guid : Str)
    (date : Option Str) (links : List (Str × Str)) :
    ∀ (bs : List Str) (idx : Nat),
      (Wiki.processBlocks env guid date links bs idx).map
          (·.originalBlockText) = trimFilter bs := by
  intro bs
  induction bs with
  | nil => intro idx; rfl
  | cons b bs ih =>
    intro idx
    rw [Wiki.processBlocks, trimFilter_cons]
    by_cases he : (trimList b).isEmpty
    · rw [if_pos he, if_pos (by rwa [List.isEmpty_iff] at he)]
      exact ih idx
    · have hne : trimList b ≠ [] := by
        intro hnil
        exact he (by rw [hnil]; rfl)
      rw [if_neg he, if_neg hne, List.map_cons, ih (idx + 1)]

/-- Claim C8. For every plain-text input handed to the block splitter, the
summarizable units produced by the feed endpoint's block loop are exactly
the blank-line-delimited paragraphs of the input (as described by the
spec-side `specParagraphs` model): whitespace-only blocks are discarded,
no units are invented, the counts agree, and the units appear in input
order. -/
theorem claim_C8 (env : Wiki.Env) (guid : Str) (date : Option Str)
    (links : List (Str × Str)) (plain : Str) :
    (Wiki.processBlocks env guid date links (splitBlocks plain) 0).map
        (·.originalBlockText) = specParagraphs plain ∧
    (Wiki.processBlocks env guid date links (splitBlocks plain) 0).length =
      (specParagraphs plain).length := by
  have h : (Wiki.processBlocks env guid date links (splitBlocks plain) 0).map
      (·.originalBlockText) = specParagraphs plain := by
    rw [processBlocks_origText, splitBlocks_eq_blocksOfLines,
      blocksOfLines_units]
    rfl
  refine ⟨h, ?_⟩
  have := congrArg List.length h
  simpa using this
